import Mathlib

/-!
Verification of the CPAS3 concurrent task-scheduling and worker-lifecycle
subsystem against its natural-language specification.

The definitions below are a shallow embedding of the Python sources:

- `src/modules/agent/task_queue.py` (classes `TaskStatus`, `Task`, `TaskQueue`),
  including a faithful embedding of the CPython `heapq` algorithms
  (`_siftdown`, `_siftup`, `heappush`, `heappop`) that back
  `queue.PriorityQueue`;
- `src/modules/agent/base_agent.py` (class `BaseAgent` and its `AgentStatus`);
- `src/modules/agent/agents/base_agent.py` (class `Agent` and its own
  `AgentStatus`, here `AgentsAgentStatus`);
- `src/modules/agent/models.py` (`AgentStatus`, here `ModelsAgentStatus`,
  and `AgentState.from_dict`), `src/modules/agent/agent_instance.py`
  (`AgentInstance.from_state`) and `src/modules/agent/agent_manager.py`
  (`AgentManager._handle_agent_thread_stop`).

Mutable Python objects are modelled by explicit state passing: the shared
`Task` objects live in the `all_tasks` association list keyed by task id,
and the `PriorityQueue` heap stores `(priority, task)` entries, modelled as
`Entry` records holding the pushed priority and the task id.  Logging,
signal emission, timestamps and the opaque `data` payload have no effect on
the modelled state and are omitted.
-/

namespace CPAS3

/-- Embedding of `TaskStatus` from `src/modules/agent/task_queue.py`. -/
inductive TaskStatus where
  | pending
  | assigned
  | in_progress
  | completed
  | failed
  | cancelled
deriving DecidableEq, Repr

/-- Embedding of the `Task` object state from `src/modules/agent/task_queue.py`.
Timestamps and the opaque `data` dict are omitted (no claim mentions them);
`result` is `Optional[Any]` in the source and is modelled as `Option String`. -/
structure Task where
  task_id : String
  description : String
  target_agent_id : Option String
  priority : Int
  status : TaskStatus
  assigned_agent_id : Option String
  result : Option String
  error_message : Option String
deriving DecidableEq, Repr

/-- Python truthiness of an `Optional[str]`: `None` and the empty string are
falsy, every other string is truthy. -/
def pyTruthy : Option String → Bool
  | none => false
  | some s => s ≠ ""

/-- Embedding of the `Task.__init__` constructor: a fresh task is `PENDING`
with no assignee, result or error. -/
def mkTask (task_id description : String) (target_agent_id : Option String)
    (priority : Int) : Task :=
  { task_id := task_id
    description := description
    target_agent_id := target_agent_id
    priority := priority
    status := TaskStatus.pending
    assigned_agent_id := none
    result := none
    error_message := none }

/-- Embedding of `Task.update_status`: when the new status differs from the
current one, the status is overwritten and the optional fields are updated;
`agent_id` is guarded by Python truthiness (`if agent_id:`), `result` and
`error` by `is not None`.  When the status is unchanged nothing happens. -/
def Task.update_status (t : Task) (status : TaskStatus) (agent_id : Option String)
    (result : Option String) (error : Option String) : Task :=
  if t.status ≠ status then
    { t with
      status := status
      assigned_agent_id := if pyTruthy agent_id then agent_id else t.assigned_agent_id
      result := if result.isSome then result else t.result
      error_message := if error.isSome then error else t.error_message }
  else
    t

/-- One heap element: `TaskQueue.add_task` pushes the pair
`(task.priority, task)` onto the `PriorityQueue`.  The task object is shared
with the `all_tasks` dict, so the entry keeps the pushed priority and the
task id; mutable task fields are read through `all_tasks`. -/
structure Entry where
  priority : Int
  id : String
deriving DecidableEq, Repr

/-- Comparison used by the heap.  Python compares `(p1, t1) < (p2, t2)`
lexicographically; `Task.__lt__` compares priorities only and the stored
pair priority always equals the immutable task priority, so the whole
comparison reduces to a strict comparison of priorities.  In particular two
entries of equal priority are never strictly ordered, which is what makes
the heap order among them depend on the array layout. -/
def entryLt (a b : Entry) : Bool :=
  a.priority < b.priority

/-- Embedding of the loop of CPython `heapq._siftdown(heap, startpos, pos)`.
The `fuel` argument makes the recursion structural; each loop iteration
strictly decreases `pos`, so `fuel = pos` (as supplied by `siftdown`) always
suffices, and the fuel-exhausted case coincides with the loop exit. -/
def siftdownFuel (newitem : Entry) : Nat → List Entry → Nat → Nat → List Entry
  | 0, heap, _, pos => heap.set pos newitem
  | fuel + 1, heap, startpos, pos =>
    if startpos < pos then
      let parentpos := (pos - 1) / 2
      let parent := heap.getD parentpos newitem
      if entryLt newitem parent then
        siftdownFuel newitem fuel (heap.set pos parent) startpos parentpos
      else
        heap.set pos newitem
    else
      heap.set pos newitem

/-- CPython `heapq._siftdown`: move `newitem` toward the root while it is
strictly smaller than its parent, then write it at its final position. -/
def siftdown (heap : List Entry) (startpos pos : Nat) (newitem : Entry) : List Entry :=
  siftdownFuel newitem pos heap startpos pos

/-- Embedding of the loop of CPython `heapq._siftup(heap, pos)`.  Each
iteration moves `pos` to a child (`2*pos+1` or `2*pos+2`), so the iteration
count is bounded by `heap.length` and `fuel = heap.length` (as supplied by
`siftup`) always suffices; the fuel-exhausted case coincides with the loop
exit, which calls `_siftdown`. -/
def siftupFuel (newitem : Entry) : Nat → List Entry → Nat → Nat → List Entry
  | 0, heap, startpos, pos => siftdown heap startpos pos newitem
  | fuel + 1, heap, startpos, pos =>
    if 2 * pos + 1 < heap.length then
      if 2 * pos + 2 < heap.length ∧
          entryLt (heap.getD (2 * pos + 1) newitem) (heap.getD (2 * pos + 2) newitem) = false then
        siftupFuel newitem fuel (heap.set pos (heap.getD (2 * pos + 2) newitem)) startpos (2 * pos + 2)
      else
        siftupFuel newitem fuel (heap.set pos (heap.getD (2 * pos + 1) newitem)) startpos (2 * pos + 1)
    else
      siftdown heap startpos pos newitem

/-- CPython `heapq._siftup`: bubble the smaller child up until reaching a
leaf, then sift the new item down; the position `startpos = pos` at entry. -/
def siftup (heap : List Entry) (startpos pos : Nat) (newitem : Entry) : List Entry :=
  siftupFuel newitem heap.length heap startpos pos

/-- CPython `heapq.heappush`: append the item, then sift it down from the
last position. -/
def heappush (heap : List Entry) (item : Entry) : List Entry :=
  siftdown (heap ++ [item]) 0 heap.length item

/-- CPython `heapq.heappop`: remove the last element; if the heap is still
nonempty, return the root, move the last element to the root and restore the
heap with `_siftup`.  An empty heap is reported as `none` (the
`queue.Empty` path of `PriorityQueue.get`). -/
def heappop : List Entry → Option (Entry × List Entry)
  | [] => none
  | [x] => some (x, [])
  | x :: y :: ys =>
    let l := x :: y :: ys
    let lastelt := l.getLast (by simp)
    let rest := l.dropLast
    some (x, siftup (rest.set 0 lastelt) 0 0 lastelt)

/-- Lookup in the `all_tasks` dict, modelled as an insertion-ordered
association list. -/
def findTask : List (String × Task) → String → Option Task
  | [], _ => none
  | (k, v) :: rest, id => if k = id then some v else findTask rest id

/-- In-place mutation of the task object stored under `id` (Python mutates
the shared object; here the stored value is replaced). -/
def updTask (m : List (String × Task)) (id : String) (t : Task) : List (String × Task) :=
  m.map (fun p => if p.1 = id then (p.1, t) else p)

/-- Embedding of the `TaskQueue` state from `src/modules/agent/task_queue.py`:
the `PriorityQueue` heap array and the `all_tasks` tracking dict. -/
structure TaskQueue where
  queue : List Entry
  all_tasks : List (String × Task)
deriving DecidableEq, Repr

/-- The freshly constructed `TaskQueue`. -/
def TaskQueue.init : TaskQueue :=
  { queue := [], all_tasks := [] }

/-- Result channel of `add_task`: the duplicate case is signalled in the
source only by the logged warning `already exists. Ignoring add request.`,
modelled as the `duplicate` outcome. -/
inductive AddResult where
  | ok
  | duplicate
deriving DecidableEq, Repr

/-- Embedding of `TaskQueue.add_task`: reject (ignore) the task when its id
is already tracked, otherwise record it in `all_tasks` and push
`(task.priority, task)` onto the heap. -/
def TaskQueue.add_task (q : TaskQueue) (t : Task) : TaskQueue × AddResult :=
  if (findTask q.all_tasks t.task_id).isSome then
    (q, AddResult.duplicate)
  else
    ({ queue := heappush q.queue { priority := t.priority, id := t.task_id }
       all_tasks := q.all_tasks ++ [(t.task_id, t)] },
     AddResult.ok)

/-- Embedding of `TaskQueue.get_task`: pop the heap root; discard it when the
task is gone from `all_tasks` or already `CANCELLED`; re-insert it at its
original priority and return `None` when it targets a different agent
(Python truthiness on the target); otherwise mark it `ASSIGNED` to the
caller and return it. -/
def TaskQueue.get_task (q : TaskQueue) (agent_id : String) : Option Task × TaskQueue :=
  match heappop q.queue with
  | none => (none, q)
  | some (entry, rest) =>
    match findTask q.all_tasks entry.id with
    | none => (none, { q with queue := rest })
    | some task =>
      if task.status = TaskStatus.cancelled then
        (none, { q with queue := rest })
      else if pyTruthy task.target_agent_id ∧ task.target_agent_id ≠ some agent_id then
        (none, { q with queue := heappush rest entry })
      else
        let task1 := task.update_status TaskStatus.assigned (some agent_id) none none
        (some task1, { queue := rest, all_tasks := updTask q.all_tasks entry.id task1 })

/-- Embedding of `TaskQueue.complete_task`: when the task exists, call
`update_status(COMPLETED, result=result)` unconditionally (the non
ASSIGNED/IN_PROGRESS case only logs a warning; the source comment reads
`Allow completion anyway? Or raise error? For now, allow.`). -/
def TaskQueue.complete_task (q : TaskQueue) (task_id : String) (result : Option String) : TaskQueue :=
  match findTask q.all_tasks task_id with
  | none => q
  | some task =>
    let task1 := task.update_status TaskStatus.completed none result none
    { q with all_tasks := updTask q.all_tasks task_id task1 }

/-- Embedding of `TaskQueue.fail_task`: when the task exists, call
`update_status(FAILED, error=error_message)` unconditionally (again the
illegal-predecessor case only logs a warning). -/
def TaskQueue.fail_task (q : TaskQueue) (task_id : String) (error_message : String) : TaskQueue :=
  match findTask q.all_tasks task_id with
  | none => q
  | some task =>
    let task1 := task.update_status TaskStatus.failed none none (some error_message)
    { q with all_tasks := updTask q.all_tasks task_id task1 }

/-- One externally invokable `TaskQueue` operation (the operation alphabet of
the trace claims): `add_task` with a freshly constructed task, `get_task` by
an arbitrary agent, `complete_task` and `fail_task`. -/
inductive Op where
  | add (task_id description : String) (target_agent_id : Option String) (priority : Int)
  | get (agent_id : String)
  | complete (task_id : String) (result : Option String)
  | fail (task_id : String) (error_message : String)

/-- Apply one operation; the second component is the id of the task returned
by `get_task`, when any. -/
def step (q : TaskQueue) : Op → TaskQueue × Option String
  | Op.add id d tgt p => ((q.add_task (mkTask id d tgt p)).1, none)
  | Op.get a =>
    let r := q.get_task a
    (r.2, r.1.map Task.task_id)
  | Op.complete id res => (q.complete_task id res, none)
  | Op.fail id err => (q.fail_task id err, none)

/-- Ids of the tasks handed out by the `get_task` calls of a trace, in call
order. -/
def runAux (q : TaskQueue) : List Op → List String
  | [] => []
  | op :: ops =>
    let r := step q op
    r.2.toList ++ runAux r.1 ops

/-- Final state after a trace of operations. -/
def applyOps (q : TaskQueue) : List Op → TaskQueue
  | [] => q
  | op :: ops => applyOps (step q op).1 ops

/-- Task ids handed out along a trace started from the fresh queue. -/
def run (ops : List Op) : List String :=
  runAux TaskQueue.init ops

/-- Embedding of `AgentStatus` from `src/modules/agent/base_agent.py` (enum
values are the uppercase member names). -/
inductive BaseAgentStatus where
  | unknown
  | initializing
  | idle
  | starting
  | running
  | thinking
  | stopping
  | stopped
  | failed
  | error
deriving DecidableEq, Repr

/-- Embedding of the `AgentStatus(value)` enum constructor of
`base_agent.py`: `none` models the `ValueError` branch. -/
def baseAgentStatusOfString (s : String) : Option BaseAgentStatus :=
  match s with
  | "UNKNOWN" => some BaseAgentStatus.unknown
  | "INITIALIZING" => some BaseAgentStatus.initializing
  | "IDLE" => some BaseAgentStatus.idle
  | "STARTING" => some BaseAgentStatus.starting
  | "RUNNING" => some BaseAgentStatus.running
  | "THINKING" => some BaseAgentStatus.thinking
  | "STOPPING" => some BaseAgentStatus.stopping
  | "STOPPED" => some BaseAgentStatus.stopped
  | "FAILED" => some BaseAgentStatus.failed
  | "ERROR" => some BaseAgentStatus.error
  | _ => none

/-- Embedding of the state-restoration logic of `BaseAgent.__init__` when a
(truthy) persisted `state` dict is supplied: the stored status string is
parsed (on `ValueError` the `initial_status` argument is kept), then any
`RUNNING`, `STARTING`, `THINKING` or `STOPPING` status is coerced to `IDLE`
before it becomes the status of the reconstructed agent. -/
def baseAgentRestoredStatus (stateStatus : Option String) (initial : BaseAgentStatus) :
    BaseAgentStatus :=
  let s0 :=
    match stateStatus with
    | none => initial
    | some str => (baseAgentStatusOfString str).getD initial
  if s0 = BaseAgentStatus.running ∨ s0 = BaseAgentStatus.starting ∨
      s0 = BaseAgentStatus.thinking ∨ s0 = BaseAgentStatus.stopping then
    BaseAgentStatus.idle
  else
    s0

/-- Embedding of `BaseAgent.start` from `src/modules/agent/base_agent.py`:
returns the resulting status and whether the loop thread was launched.  The
method returns early when a thread is already alive, when the status is
`RUNNING`, `STARTING` or `THINKING`, or when it is `ERROR`; otherwise it
sets `STARTING` and launches the thread. -/
def baseAgentStart (thread_alive : Bool) (s : BaseAgentStatus) : BaseAgentStatus × Bool :=
  if thread_alive then
    (s, false)
  else if s = BaseAgentStatus.running ∨ s = BaseAgentStatus.starting ∨
      s = BaseAgentStatus.thinking then
    (s, false)
  else if s = BaseAgentStatus.error then
    (s, false)
  else
    (BaseAgentStatus.starting, true)

/-- Embedding of `AgentStatus` from `src/modules/agent/agents/base_agent.py`
(a divergent second enum: it has `COMPLETED` and lacks `STARTING` and
`STOPPING`). -/
inductive AgentsAgentStatus where
  | initializing
  | idle
  | running
  | thinking
  | stopped
  | failed
  | error
  | completed
  | unknown
deriving DecidableEq, Repr

/-- Embedding of `Agent.start` from `src/modules/agent/agents/base_agent.py`:
returns the resulting status and whether the loop thread was launched.  The
method warns and returns when a thread is alive or the status is not in the
startable list `[IDLE, STOPPED, FAILED, COMPLETED, INITIALIZING, ERROR]`;
otherwise it sets `RUNNING` and launches the thread. -/
def agentsAgentStart (thread_alive : Bool) (s : AgentsAgentStatus) : AgentsAgentStatus × Bool :=
  if thread_alive then
    (s, false)
  else if s = AgentsAgentStatus.idle ∨ s = AgentsAgentStatus.stopped ∨
      s = AgentsAgentStatus.failed ∨ s = AgentsAgentStatus.completed ∨
      s = AgentsAgentStatus.initializing ∨ s = AgentsAgentStatus.error then
    (AgentsAgentStatus.running, true)
  else
    (s, false)

/-- Embedding of `AgentStatus` from `src/modules/agent/models.py` (values are
lowercase strings; there is no `THINKING`, `FAILED` or `CANCELLED` member).
This is the status type of `AgentInstance` and `AgentManager`. -/
inductive ModelsAgentStatus where
  | idle
  | starting
  | running
  | stopping
  | stopped
  | error
  | unknown
deriving DecidableEq, Repr

/-- The `.value` string of a `models.py` `AgentStatus` member, as stored by
`AgentState.to_dict` in persisted snapshots. -/
def modelsAgentStatusValue : ModelsAgentStatus → String
  | ModelsAgentStatus.idle => "idle"
  | ModelsAgentStatus.starting => "starting"
  | ModelsAgentStatus.running => "running"
  | ModelsAgentStatus.stopping => "stopping"
  | ModelsAgentStatus.stopped => "stopped"
  | ModelsAgentStatus.error => "error"
  | ModelsAgentStatus.unknown => "unknown"

/-- Embedding of the status parsing of `AgentState.from_dict` in
`src/modules/agent/models.py`: `AgentStatus(status_str)`, with the
`ValueError` branch producing `UNKNOWN`. -/
def modelsAgentStatusOfString (s : String) : ModelsAgentStatus :=
  match s with
  | "idle" => ModelsAgentStatus.idle
  | "starting" => ModelsAgentStatus.starting
  | "running" => ModelsAgentStatus.running
  | "stopping" => ModelsAgentStatus.stopping
  | "stopped" => ModelsAgentStatus.stopped
  | "error" => ModelsAgentStatus.error
  | "unknown" => ModelsAgentStatus.unknown
  | _ => ModelsAgentStatus.unknown

/-- Embedding of the status produced by `AgentInstance.from_state`
(`src/modules/agent/agent_instance.py`): `AgentState.from_dict` parses the
persisted status string (missing key defaults to `unknown`), and
`from_state` passes the parsed status through as `initial_status`, which
becomes the status of the reconstructed instance.  The guard
`if initial_status not in AgentStatus: STOPPED` never fires for a parsed
member, so no coercion of active statuses takes place on this path. -/
def agentInstanceLoadedStatus (stateStatus : Option String) : ModelsAgentStatus :=
  modelsAgentStatusOfString (stateStatus.getD "unknown")

/-- Embedding of `AgentManager._handle_agent_thread_stop`
(`src/modules/agent/agent_manager.py`): when the thread of a registered
agent stops while its recorded status is not `STOPPED` or `ERROR`, the
manager forces the status to `ERROR`. -/
def handleAgentThreadStop (status : ModelsAgentStatus) : ModelsAgentStatus :=
  if status ≠ ModelsAgentStatus.stopped ∧ status ≠ ModelsAgentStatus.error then
    ModelsAgentStatus.error
  else
    status

/-- Ids of the entries currently stored in the priority heap. -/
def queueIds (q : TaskQueue) : List String :=
  q.queue.map Entry.id

/-- Every stored pair maps the id key to a task carrying that id (in Python
the dict key is always `task.task_id` of the stored object). -/
def KeysConsistent (m : List (String × Task)) : Prop :=
  ∀ p ∈ m, (Prod.snd p).task_id = p.1

/-- State invariant of reachable `TaskQueue` states: heap ids are distinct,
every id in the heap is tracked in `all_tasks`, and stored tasks carry their
key as `task_id`. -/
def QueueInv (q : TaskQueue) : Prop :=
  (queueIds q).Nodup ∧
  (∀ id ∈ queueIds q, (findTask q.all_tasks id).isSome) ∧
  KeysConsistent q.all_tasks

-- ### Generic list lemmas used by the heap permutation arguments

theorem getD_congr {α : Type} (l : List α) (i : Nat) (d1 d2 : α) (h : i < l.length) :
    l.getD i d1 = l.getD i d2 := by
  simp [List.getD_eq_getElem?_getD, List.getElem?_eq_getElem h]

theorem getD_set_ne {α : Type} (l : List α) (i j : Nat) (h : i ≠ j) (a d : α) :
    (l.set i a).getD j d = l.getD j d := by
  simp [List.getD_eq_getElem?_getD, List.getElem?_set_ne h]

theorem count_set_eq {α : Type} [DecidableEq α] (a x : α) :
    ∀ (l : List α) (i : Nat), i < l.length →
      (l.set i a).count x + (if l.getD i a = x then 1 else 0)
        = l.count x + (if a = x then 1 else 0) := by
  intro l
  induction l with
  | nil => intro i h; simp at h
  | cons y t ih =>
    intro i h
    cases i with
    | zero =>
      simp only [List.set_cons_zero, List.getD_cons_zero, List.count_cons, beq_iff_eq]
      omega
    | succ n =>
      simp only [List.set_cons_succ, List.getD_cons_succ, List.count_cons, beq_iff_eq]
      have := ih n (by simpa using h)
      omega

theorem set_get_set_perm {α : Type} [DecidableEq α] (l : List α) (i j : Nat)
    (hi : i < l.length) (hj : j < l.length) (hne : i ≠ j) (b d : α) :
    ((l.set i (l.getD j d)).set j b).Perm (l.set i b) := by
  rw [List.perm_iff_count]
  intro x
  have e1 := count_set_eq b x (l.set i (l.getD j d)) j (by simpa using hj)
  have e2 := count_set_eq (l.getD j d) x l i hi
  have e3 := count_set_eq b x l i hi
  rw [getD_set_ne l i j hne] at e1
  rw [getD_congr l j b d hj] at e1
  rw [getD_congr l i (l.getD j d) b hi] at e2
  omega

theorem set_append_last {α : Type} (l : List α) (a b : α) :
    (l ++ [a]).set l.length b = l ++ [b] := by
  induction l with
  | nil => rfl
  | cons x t ih => simp [List.set_cons_succ, ih]

-- ### Permutation facts for the embedded heapq operations

theorem siftdownFuel_perm (it : Entry) :
    ∀ (fuel : Nat) (heap : List Entry) (s pos : Nat), pos < heap.length →
      (siftdownFuel it fuel heap s pos).Perm (heap.set pos it) := by
  intro fuel
  induction fuel with
  | zero => intro heap s pos _; simp [siftdownFuel]
  | succ n ih =>
    intro heap s pos h
    simp only [siftdownFuel]
    split
    · split
      · have hpp : (pos - 1) / 2 < pos := by omega
        refine (ih _ _ _ (by simpa using lt_trans hpp h)).trans ?_
        exact set_get_set_perm heap pos ((pos - 1) / 2) h (lt_trans hpp h) (by omega) it it
      · exact List.Perm.refl _
    · exact List.Perm.refl _

theorem siftdown_perm (heap : List Entry) (s pos : Nat) (it : Entry) (h : pos < heap.length) :
    (siftdown heap s pos it).Perm (heap.set pos it) :=
  siftdownFuel_perm it pos heap s pos h

theorem siftupFuel_perm (it : Entry) :
    ∀ (fuel : Nat) (heap : List Entry) (s pos : Nat), pos < heap.length →
      (siftupFuel it fuel heap s pos).Perm (heap.set pos it) := by
  intro fuel
  induction fuel with
  | zero => intro heap s pos h; exact siftdown_perm heap s pos it h
  | succ n ih =>
    intro heap s pos h
    simp only [siftupFuel]
    split
    · split
      · rename_i h1 h2
        refine (ih _ _ _ (by simpa using h2.1)).trans ?_
        exact set_get_set_perm heap pos (2 * pos + 2) h h2.1 (by omega) it it
      · rename_i h1 h2
        refine (ih _ _ _ (by simpa using h1)).trans ?_
        exact set_get_set_perm heap pos (2 * pos + 1) h h1 (by omega) it it
    · exact siftdown_perm heap s pos it h

theorem siftup_perm (heap : List Entry) (s pos : Nat) (it : Entry) (h : pos < heap.length) :
    (siftup heap s pos it).Perm (heap.set pos it) :=
  siftupFuel_perm it heap.length heap s pos h

theorem heappush_perm (heap : List Entry) (e : Entry) :
    (heappush heap e).Perm (e :: heap) := by
  unfold heappush
  have h : heap.length < (heap ++ [e]).length := by simp
  have h2 := siftdown_perm (heap ++ [e]) 0 heap.length e h
  rw [set_append_last] at h2
  exact h2.trans List.perm_append_comm

theorem heappop_perm :
    ∀ (heap : List Entry) (e : Entry) (rest : List Entry),
      heappop heap = some (e, rest) → heap.Perm (e :: rest) := by
  intro heap e rest h
  match heap with
  | [] => simp [heappop] at h
  | [x] =>
    simp only [heappop, Option.some.injEq, Prod.mk.injEq] at h
    obtain ⟨rfl, rfl⟩ := h
    exact List.Perm.refl _
  | x :: y :: ys =>
    simp only [heappop, Option.some.injEq, Prod.mk.injEq] at h
    obtain ⟨rfl, hrest⟩ := h
    set last := (x :: y :: ys).getLast (by simp) with hlast
    have hd : (x :: y :: ys).dropLast = x :: (y :: ys).dropLast := List.dropLast_cons₂
    have hdlen : 0 < ((x :: y :: ys).dropLast.set 0 last).length := by
      simp [hd]
    have hperm := siftup_perm ((x :: y :: ys).dropLast.set 0 last) 0 0 last hdlen
    rw [List.set_set] at hperm
    rw [← hrest] at *
    have hset : (x :: y :: ys).dropLast.set 0 last = last :: (y :: ys).dropLast := by
      rw [hd]; rfl
    have hrest2 : (siftup ((x :: y :: ys).dropLast.set 0 last) 0 0 last).Perm
        (last :: (y :: ys).dropLast) := by
      rw [hset] at hperm
      exact hperm
    have hwhole : (x :: y :: ys) = (x :: (y :: ys).dropLast) ++ [last] := by
      rw [← hd]
      exact (List.dropLast_append_getLast (by simp)).symm
    have hfinal : (x :: y :: ys).Perm (x :: (last :: (y :: ys).dropLast)) := by
      conv_lhs => rw [hwhole]
      exact List.Perm.cons x List.perm_append_comm
    exact hfinal.trans (List.Perm.cons x hrest2.symm)

-- ### Facts about the task dictionary

theorem findTask_cons (k : String) (v : Task) (rest : List (String × Task)) (id : String) :
    findTask ((k, v) :: rest) id = if k = id then some v else findTask rest id :=
  rfl

theorem updTask_cons (k : String) (v : Task) (rest : List (String × Task)) (id : String)
    (t : Task) :
    updTask ((k, v) :: rest) id t
      = (if k = id then (k, t) else (k, v)) :: updTask rest id t := by
  simp only [updTask, List.map_cons]

theorem findTask_append_some (m1 m2 : List (String × Task)) (id : String) (t : Task)
    (h : findTask m1 id = some t) : findTask (m1 ++ m2) id = some t := by
  induction m1 with
  | nil => simp [findTask] at h
  | cons p rest ih =>
    obtain ⟨k, v⟩ := p
    rw [List.cons_append, findTask_cons]
    rw [findTask_cons] at h
    by_cases hk : k = id
    · rwa [if_pos hk] at h ⊢
    · rw [if_neg hk] at h ⊢
      exact ih h

theorem findTask_append_none (m1 m2 : List (String × Task)) (id : String)
    (h : findTask m1 id = none) : findTask (m1 ++ m2) id = findTask m2 id := by
  induction m1 with
  | nil => simp [findTask]
  | cons p rest ih =>
    obtain ⟨k, v⟩ := p
    rw [List.cons_append, findTask_cons]
    rw [findTask_cons] at h
    by_cases hk : k = id
    · rw [if_pos hk] at h
      exact absurd h (by simp)
    · rw [if_neg hk] at h ⊢
      exact ih h

theorem findTask_updTask_isSome (m : List (String × Task)) (id : String) (t : Task)
    (id2 : String) :
    (findTask (updTask m id t) id2).isSome = (findTask m id2).isSome := by
  induction m with
  | nil => rfl
  | cons p rest ih =>
    obtain ⟨k, v⟩ := p
    rw [updTask_cons, findTask_cons]
    by_cases hk : k = id
    · rw [if_pos hk, findTask_cons]
      by_cases h2 : k = id2
      · rw [if_pos h2, if_pos h2]
        rfl
      · rw [if_neg h2, if_neg h2]
        exact ih
    · rw [if_neg hk, findTask_cons]
      by_cases h2 : k = id2
      · rw [if_pos h2, if_pos h2]
      · rw [if_neg h2, if_neg h2]
        exact ih

theorem findTask_updTask_self (m : List (String × Task)) (id : String) (t t0 : Task)
    (h : findTask m id = some t0) : findTask (updTask m id t) id = some t := by
  induction m with
  | nil => simp [findTask] at h
  | cons p rest ih =>
    obtain ⟨k, v⟩ := p
    rw [findTask_cons] at h
    rw [updTask_cons]
    by_cases hk : k = id
    · rw [if_pos hk, findTask_cons, if_pos hk]
    · rw [if_neg hk, findTask_cons, if_neg hk]
      rw [if_neg hk] at h
      exact ih h

theorem findTask_eq_key (m : List (String × Task)) (id : String) (t : Task)
    (h : findTask m id = some t) (hk : KeysConsistent m) : t.task_id = id := by
  induction m with
  | nil => simp [findTask] at h
  | cons p rest ih =>
    obtain ⟨k, v⟩ := p
    rw [findTask_cons] at h
    by_cases he : k = id
    · rw [if_pos he] at h
      have hv : v.task_id = k := hk (k, v) (List.mem_cons_self _ _)
      cases Option.some.inj h
      exact hv.trans he
    · rw [if_neg he] at h
      exact ih h (fun p hp => hk p (List.mem_cons_of_mem _ hp))

theorem keysConsistent_append (m : List (String × Task)) (t : Task)
    (h : KeysConsistent m) : KeysConsistent (m ++ [(t.task_id, t)]) := by
  intro p hp
  rcases List.mem_append.mp hp with hp1 | hp1
  · exact h p hp1
  · simp at hp1
    subst hp1
    rfl

theorem keysConsistent_updTask (m : List (String × Task)) (id : String) (t : Task)
    (h : KeysConsistent m) (ht : t.task_id = id) : KeysConsistent (updTask m id t) := by
  intro p hp
  simp only [updTask, List.mem_map] at hp
  obtain ⟨p0, hp0, hpe⟩ := hp
  by_cases hk : p0.1 = id
  · rw [if_pos hk] at hpe
    subst hpe
    simpa [hk] using ht
  · rw [if_neg hk] at hpe
    subst hpe
    exact h p0 hp0

theorem update_status_task_id (t : Task) (s : TaskStatus) (a r e : Option String) :
    (t.update_status s a r e).task_id = t.task_id := by
  unfold Task.update_status
  split <;> rfl

theorem update_status_target (t : Task) (s : TaskStatus) (a r e : Option String) :
    (t.update_status s a r e).target_agent_id = t.target_agent_id := by
  unfold Task.update_status
  split <;> rfl

-- ### One-step specifications used by the exactly-once-claim invariant

theorem get_task_spec (q : TaskQueue) (a : String) (hInv : QueueInv q) :
    QueueInv (q.get_task a).2 ∧
    (∀ id, (findTask q.all_tasks id).isSome → (findTask (q.get_task a).2.all_tasks id).isSome) ∧
    (∀ id, id ∉ queueIds q → id ∉ queueIds (q.get_task a).2) ∧
    (∀ t, (q.get_task a).1 = some t →
      t.task_id ∈ queueIds q ∧ t.task_id ∉ queueIds (q.get_task a).2 ∧
      (findTask (q.get_task a).2.all_tasks t.task_id).isSome) := by
  obtain ⟨hnd, hsome, hkeys⟩ := hInv
  rcases heq : heappop q.queue with _ | ⟨e, rest⟩
  · simp only [TaskQueue.get_task, heq]
    exact ⟨⟨hnd, hsome, hkeys⟩, fun id h => h, fun id h => h, by simp⟩
  · have hperm : q.queue.Perm (e :: rest) := heappop_perm _ _ _ heq
    have hidperm : (queueIds q).Perm (e.id :: rest.map Entry.id) := by
      simpa [queueIds] using hperm.map Entry.id
    have hmem : e.id ∈ queueIds q := hidperm.symm.subset (List.mem_cons_self _ _)
    have hnd2 : (e.id :: rest.map Entry.id).Nodup := (hidperm.nodup_iff).mp hnd
    have hnotin : e.id ∉ rest.map Entry.id := (List.nodup_cons.mp hnd2).1
    have hndrest : (rest.map Entry.id).Nodup := (List.nodup_cons.mp hnd2).2
    have hsub : ∀ id, id ∈ rest.map Entry.id → id ∈ queueIds q := fun id hid =>
      hidperm.symm.subset (List.mem_cons_of_mem _ hid)
    rcases hfind : findTask q.all_tasks e.id with _ | task
    · simp only [TaskQueue.get_task, heq, hfind]
      refine ⟨⟨hndrest, ?_, hkeys⟩, fun id h => h, fun id hid hc => hid (hsub _ hc), by simp⟩
      intro id hid
      exact hsome id (hsub id hid)
    · by_cases hc1 : task.status = TaskStatus.cancelled
      · simp only [TaskQueue.get_task, heq, hfind, if_pos hc1]
        refine ⟨⟨hndrest, ?_, hkeys⟩, fun id h => h, fun id hid hc => hid (hsub _ hc), by simp⟩
        intro id hid
        exact hsome id (hsub id hid)
      · by_cases hc2 : pyTruthy task.target_agent_id ∧ task.target_agent_id ≠ some a
        · simp only [TaskQueue.get_task, heq, hfind, if_neg hc1, if_pos hc2]
          have hpush : ((heappush rest e).map Entry.id).Perm (queueIds q) := by
            refine List.Perm.trans ?_ hidperm.symm
            simpa using (heappush_perm rest e).map Entry.id
          refine ⟨⟨?_, ?_, hkeys⟩, fun id h => h, ?_, by simp⟩
          · exact (hpush.nodup_iff).mpr hnd
          · intro id hid
            exact hsome id (hpush.subset hid)
          · intro id hid hc
            exact hid (hpush.subset hc)
        · simp only [TaskQueue.get_task, heq, hfind, if_neg hc1, if_neg hc2]
          have htid : task.task_id = e.id := findTask_eq_key _ _ _ hfind hkeys
          have htid1 :
              (task.update_status TaskStatus.assigned (some a) none none).task_id = e.id :=
            (update_status_task_id task _ _ _ _).trans htid
          refine ⟨⟨hndrest, ?_, ?_⟩, ?_, ?_, ?_⟩
          · intro id hid
            rw [findTask_updTask_isSome]
            exact hsome id (hsub id hid)
          · exact keysConsistent_updTask _ _ _ hkeys htid1
          · intro id h
            rw [findTask_updTask_isSome]
            exact h
          · intro id hid hc
            exact hid (hsub _ hc)
          · intro t ht
            obtain rfl := Option.some.inj ht
            refine ⟨?_, ?_, ?_⟩
            · rw [htid1]; exact hmem
            · rw [htid1]; exact hnotin
            · rw [htid1, findTask_updTask_self _ _ _ task hfind]
              rfl

theorem add_task_spec (q : TaskQueue) (t : Task) (hInv : QueueInv q) :
    QueueInv (q.add_task t).1 ∧
    (∀ id, (findTask q.all_tasks id).isSome → (findTask (q.add_task t).1.all_tasks id).isSome) ∧
    (∀ id, (findTask q.all_tasks id).isSome → id ∉ queueIds q →
      id ∉ queueIds (q.add_task t).1) := by
  obtain ⟨hnd, hsome, hkeys⟩ := hInv
  by_cases hdup : (findTask q.all_tasks t.task_id).isSome = true
  · simp only [TaskQueue.add_task, if_pos hdup]
    exact ⟨⟨hnd, hsome, hkeys⟩, fun id h => h, fun id _ h => h⟩
  · simp only [TaskQueue.add_task, if_neg hdup]
    have hfnone : findTask q.all_tasks t.task_id = none := by
      rcases hfx : findTask q.all_tasks t.task_id with _ | u
      · rfl
      · rw [hfx] at hdup; simp at hdup
    have hidperm :
        ((heappush q.queue { priority := t.priority, id := t.task_id }).map Entry.id).Perm
          (t.task_id :: queueIds q) := by
      simpa [queueIds] using
        (heappush_perm q.queue { priority := t.priority, id := t.task_id }).map Entry.id
    have hfresh : t.task_id ∉ queueIds q := by
      intro hmem
      have hx := hsome t.task_id hmem
      rw [hfnone] at hx
      simp at hx
    refine ⟨⟨?_, ?_, ?_⟩, ?_, ?_⟩
    · exact (hidperm.nodup_iff).mpr (List.nodup_cons.mpr ⟨hfresh, hnd⟩)
    · intro id hid
      have hid2 : id ∈ t.task_id :: queueIds q := hidperm.subset hid
      rcases List.mem_cons.mp hid2 with rfl | hid3
      · rw [findTask_append_none _ _ _ hfnone, findTask_cons, if_pos rfl]
        rfl
      · obtain ⟨u, hu⟩ := Option.isSome_iff_exists.mp (hsome id hid3)
        rw [findTask_append_some _ _ _ _ hu]
        rfl
    · exact keysConsistent_append _ _ hkeys
    · intro id h
      obtain ⟨u, hu⟩ := Option.isSome_iff_exists.mp h
      rw [findTask_append_some _ _ _ _ hu]
      rfl
    · intro id hsomeid hnotin hidmem
      have hid2 : id ∈ t.task_id :: queueIds q := hidperm.subset hidmem
      rcases List.mem_cons.mp hid2 with rfl | hid3
      · rw [hfnone] at hsomeid
        simp at hsomeid
      · exact hnotin hid3

theorem complete_task_spec (q : TaskQueue) (id0 : String) (res : Option String)
    (hInv : QueueInv q) :
    QueueInv (q.complete_task id0 res) ∧
    (∀ id, (findTask q.all_tasks id).isSome →
      (findTask (q.complete_task id0 res).all_tasks id).isSome) ∧
    queueIds (q.complete_task id0 res) = queueIds q := by
  obtain ⟨hnd, hsome, hkeys⟩ := hInv
  rcases hf : findTask q.all_tasks id0 with _ | task
  · simp only [TaskQueue.complete_task, hf]
    exact ⟨⟨hnd, hsome, hkeys⟩, fun id h => h, trivial⟩
  · simp only [TaskQueue.complete_task, hf]
    have htid : task.task_id = id0 := findTask_eq_key _ _ _ hf hkeys
    have htid1 :
        (task.update_status TaskStatus.completed none res none).task_id = id0 :=
      (update_status_task_id task _ _ _ _).trans htid
    refine ⟨⟨hnd, ?_, keysConsistent_updTask _ _ _ hkeys htid1⟩, ?_, rfl⟩
    · intro id hid
      rw [findTask_updTask_isSome]
      exact hsome id hid
    · intro id h
      rw [findTask_updTask_isSome]
      exact h

theorem fail_task_spec (q : TaskQueue) (id0 : String) (err : String) (hInv : QueueInv q) :
    QueueInv (q.fail_task id0 err) ∧
    (∀ id, (findTask q.all_tasks id).isSome →
      (findTask (q.fail_task id0 err).all_tasks id).isSome) ∧
    queueIds (q.fail_task id0 err) = queueIds q := by
  obtain ⟨hnd, hsome, hkeys⟩ := hInv
  rcases hf : findTask q.all_tasks id0 with _ | task
  · simp only [TaskQueue.fail_task, hf]
    exact ⟨⟨hnd, hsome, hkeys⟩, fun id h => h, trivial⟩
  · simp only [TaskQueue.fail_task, hf]
    have htid : task.task_id = id0 := findTask_eq_key _ _ _ hf hkeys
    have htid1 :
        (task.update_status TaskStatus.failed none none (some err)).task_id = id0 :=
      (update_status_task_id task _ _ _ _).trans htid
    refine ⟨⟨hnd, ?_, keysConsistent_updTask _ _ _ hkeys htid1⟩, ?_, rfl⟩
    · intro id hid
      rw [findTask_updTask_isSome]
      exact hsome id hid
    · intro id h
      rw [findTask_updTask_isSome]
      exact h

theorem step_spec (q : TaskQueue) (op : Op) (hInv : QueueInv q) :
    QueueInv (step q op).1 ∧
    (∀ id, (findTask q.all_tasks id).isSome → (findTask (step q op).1.all_tasks id).isSome) ∧
    (∀ id, (findTask q.all_tasks id).isSome → id ∉ queueIds q →
      id ∉ queueIds (step q op).1) ∧
    (∀ rid, (step q op).2 = some rid →
      rid ∈ queueIds q ∧ rid ∉ queueIds (step q op).1 ∧
      (findTask (step q op).1.all_tasks rid).isSome) := by
  cases op with
  | add id d tgt p =>
    obtain ⟨h1, h2, h3⟩ := add_task_spec q (mkTask id d tgt p) hInv
    exact ⟨h1, h2, h3, fun rid h => by simp [step] at h⟩
  | get a =>
    obtain ⟨h1, h2, h3, h4⟩ := get_task_spec q a hInv
    refine ⟨h1, h2, fun id _ h => h3 id h, ?_⟩
    intro rid hr
    rcases h5 : (q.get_task a).1 with _ | t
    · exact absurd hr (by simp [step, h5])
    · have heq : t.task_id = rid := by
        have : (step q (Op.get a)).2 = some t.task_id := by simp [step, h5]
        rw [hr] at this
        exact (Option.some.inj this).symm
      obtain ⟨ha, hb, hc⟩ := h4 t h5
      rw [heq] at ha hb hc
      exact ⟨ha, hb, hc⟩
  | complete id0 res =>
    obtain ⟨h1, h2, h3⟩ := complete_task_spec q id0 res hInv
    refine ⟨h1, h2, fun id _ h => ?_, fun rid h => by simp [step] at h⟩
    rw [show queueIds (step q (Op.complete id0 res)).1 = queueIds q from h3]
    exact h
  | fail id0 err =>
    obtain ⟨h1, h2, h3⟩ := fail_task_spec q id0 err hInv
    refine ⟨h1, h2, fun id _ h => ?_, fun rid h => by simp [step] at h⟩
    rw [show queueIds (step q (Op.fail id0 err)).1 = queueIds q from h3]
    exact h

theorem runAux_not_mem :
    ∀ (ops : List Op) (q : TaskQueue) (id : String), QueueInv q →
      (findTask q.all_tasks id).isSome → id ∉ queueIds q → id ∉ runAux q ops := by
  intro ops
  induction ops with
  | nil => intro q id _ _ _; simp [runAux]
  | cons op ops ih =>
    intro q id hInv hSome hNot
    obtain ⟨h1, h2, h3, h4⟩ := step_spec q op hInv
    simp only [runAux, List.mem_append]
    rintro (hmem | hmem)
    · rcases hr : (step q op).2 with _ | rid
      · rw [hr] at hmem
        simp at hmem
      · rw [hr] at hmem
        simp at hmem
        subst hmem
        exact hNot (h4 _ hr).1
    · exact ih (step q op).1 id h1 (h2 id hSome) (h3 id hSome hNot) hmem

theorem runAux_nodup :
    ∀ (ops : List Op) (q : TaskQueue), QueueInv q → (runAux q ops).Nodup := by
  intro ops
  induction ops with
  | nil => intro q _; simp [runAux]
  | cons op ops ih =>
    intro q hInv
    obtain ⟨h1, _, _, h4⟩ := step_spec q op hInv
    simp only [runAux]
    rcases hr : (step q op).2 with _ | rid
    · simpa using ih (step q op).1 h1
    · simp only [Option.toList_some, List.singleton_append, List.nodup_cons]
      obtain ⟨_, hout, hsm⟩ := h4 rid hr
      exact ⟨runAux_not_mem ops _ rid h1 hsm hout, ih _ h1⟩

-- ### Claim theorems

/-- C1: for every task and every sequence of `TaskQueue` operations
(`add_task`, `get_task` by any agent ids, `complete_task`, `fail_task`)
started from the fresh queue, at most one `get_task` call ever returns that
task: the list of task ids handed out by the `get_task` calls of any trace
has no duplicates, because a returned task is popped from the heap, never
re-inserted, and its id can never be enqueued again. -/
theorem task_claimed_at_most_once (ops : List Op) : (run ops).Nodup := by
  apply runAux_nodup
  refine ⟨?_, ?_, ?_⟩
  · simp [queueIds, TaskQueue.init]
  · simp [queueIds, TaskQueue.init]
  · intro p hp
    simp [TaskQueue.init] at hp

/-- C2 counterexample: the queue holds t1 (priority 0, targeted at w2) and t2
(priority 1, untargeted); `get_task` by w1 returns `none` instead of going on
to return the eligible t2, and both tasks are back in the heap afterwards —
the call gives up after the first mismatch. -/
theorem get_task_first_mismatch_cex :
    ((((TaskQueue.init.add_task (mkTask "t1" "a" (some "w2") 0)).1.add_task
        (mkTask "t2" "b" none 1)).1.get_task "w1").1 = none) ∧
    (((((TaskQueue.init.add_task (mkTask "t1" "a" (some "w2") 0)).1.add_task
        (mkTask "t2" "b" none 1)).1.get_task "w1").2.queue.map Entry.id) = ["t1", "t2"]) := by
  exact ⟨rfl, rfl⟩

/-- C2 amended: when the popped highest-priority task has a (truthy) target
different from the calling worker, `get_task` re-inserts it at its original
priority and immediately returns `none` without evaluating any further
queued item; the caller is expected to retry. -/
theorem get_task_mismatch_requeues_and_returns_none
    (q : TaskQueue) (a : String) (e : Entry) (rest : List Entry) (task : Task)
    (hpop : heappop q.queue = some (e, rest))
    (hfind : findTask q.all_tasks e.id = some task)
    (hcanc : task.status ≠ TaskStatus.cancelled)
    (htruthy : pyTruthy task.target_agent_id = true)
    (hne : task.target_agent_id ≠ some a) :
    q.get_task a = (none, { q with queue := heappush rest e }) := by
  simp only [TaskQueue.get_task, hpop, hfind, if_neg hcanc]
  rw [if_pos (show pyTruthy task.target_agent_id ∧ task.target_agent_id ≠ some a from
    ⟨htruthy, hne⟩)]

/-- Witness for the amended C2 theorem at a concrete two-task queue. -/
theorem get_task_mismatch_requeues_and_returns_none_witness :
    TaskQueue.get_task
        ⟨[⟨0, "t1"⟩, ⟨1, "t2"⟩],
         [("t1", mkTask "t1" "a" (some "w2") 0), ("t2", mkTask "t2" "b" none 1)]⟩ "w1"
      = (none,
         ⟨heappush [⟨1, "t2"⟩] ⟨0, "t1"⟩,
          [("t1", mkTask "t1" "a" (some "w2") 0), ("t2", mkTask "t2" "b" none 1)]⟩) :=
  get_task_mismatch_requeues_and_returns_none _ _ _ _ _ rfl rfl (by decide) (by decide)
    (by decide)

/-- C3: `add_task` with a task whose id is already tracked is rejected with
the duplicate outcome (the logged duplicate-id warning) and the whole queue
state — heap and stored tasks, in particular the previously stored task —
is left exactly unchanged. -/
theorem add_task_duplicate_rejected (q : TaskQueue) (t t0 : Task)
    (h : findTask q.all_tasks t.task_id = some t0) :
    q.add_task t = (q, AddResult.duplicate) := by
  simp [TaskQueue.add_task, h]

/-- Witness for C3: re-adding id t with different fields is rejected and the
stored task keeps its original description. -/
theorem add_task_duplicate_rejected_witness :
    TaskQueue.add_task ⟨[⟨0, "t"⟩], [("t", mkTask "t" "d" none 0)]⟩ (mkTask "t" "x" none 5)
      = (⟨[⟨0, "t"⟩], [("t", mkTask "t" "d" none 0)]⟩, AddResult.duplicate) :=
  add_task_duplicate_rejected _ _ (mkTask "t" "d" none 0) rfl

/-- C4 counterexample: the trace add, get, fail drives task t to the terminal
status FAILED; the following `complete_task` call is not rejected with an
InvalidTransition error — it overwrites the status with COMPLETED and stores
the new result, so the terminal task is not left unchanged. -/
theorem complete_task_on_terminal_cex :
    ((findTask (applyOps TaskQueue.init
        [Op.add "t" "d" none 0, Op.get "w", Op.fail "t" "boom"]).all_tasks "t").map
          Task.status = some TaskStatus.failed) ∧
    (findTask (applyOps TaskQueue.init
        [Op.add "t" "d" none 0, Op.get "w", Op.fail "t" "boom",
         Op.complete "t" (some "ok")]).all_tasks "t"
      = some { task_id := "t", description := "d", target_agent_id := none,
               priority := 0, status := TaskStatus.completed,
               assigned_agent_id := some "w", result := some "ok",
               error_message := some "boom" }) := by
  exact ⟨rfl, rfl⟩

/-- C4 amended: `complete_task` and `fail_task` on an already-terminal task
log a warning but are not rejected: the stored task is updated by
`update_status`, which overwrites the status (and stores the result or
error) whenever the current status differs from the requested one; only a
task that is already in exactly the requested status is left unchanged. -/
theorem terminal_complete_fail_not_rejected (q : TaskQueue) (id : String)
    (res : Option String) (err : String) (task : Task)
    (hfind : findTask q.all_tasks id = some task)
    (_hterm : task.status = TaskStatus.completed ∨ task.status = TaskStatus.failed ∨
      task.status = TaskStatus.cancelled) :
    findTask (q.complete_task id res).all_tasks id
        = some (task.update_status TaskStatus.completed none res none) ∧
    (task.status ≠ TaskStatus.completed →
      (task.update_status TaskStatus.completed none res none).status
        = TaskStatus.completed) ∧
    (task.status = TaskStatus.completed →
      task.update_status TaskStatus.completed none res none = task) ∧
    findTask (q.fail_task id err).all_tasks id
        = some (task.update_status TaskStatus.failed none none (some err)) ∧
    (task.status ≠ TaskStatus.failed →
      (task.update_status TaskStatus.failed none none (some err)).status
        = TaskStatus.failed) ∧
    (task.status = TaskStatus.failed →
      task.update_status TaskStatus.failed none none (some err) = task) := by
  refine ⟨?_, ?_, ?_, ?_, ?_, ?_⟩
  · simp only [TaskQueue.complete_task, hfind]
    exact findTask_updTask_self _ _ _ _ hfind
  · intro hne
    simp [Task.update_status, hne]
  · intro heq
    simp [Task.update_status, heq]
  · simp only [TaskQueue.fail_task, hfind]
    exact findTask_updTask_self _ _ _ _ hfind
  · intro hne
    simp [Task.update_status, hne]
  · intro heq
    simp [Task.update_status, heq]

/-- Witness for the amended C4 theorem: completing a FAILED task stores the
updated (COMPLETED) task. -/
theorem terminal_complete_fail_not_rejected_witness :
    findTask (TaskQueue.complete_task
        ⟨[], [("t", { task_id := "t", description := "d", target_agent_id := none,
                      priority := 0, status := TaskStatus.failed,
                      assigned_agent_id := some "w", result := none,
                      error_message := some "boom" })]⟩ "t" (some "ok")).all_tasks "t"
      = some (Task.update_status
          { task_id := "t", description := "d", target_agent_id := none,
            priority := 0, status := TaskStatus.failed,
            assigned_agent_id := some "w", result := none,
            error_message := some "boom" }
          TaskStatus.completed none (some "ok") none) :=
  (terminal_complete_fail_not_rejected
    ⟨[], [("t", { task_id := "t", description := "d", target_agent_id := none,
                  priority := 0, status := TaskStatus.failed,
                  assigned_agent_id := some "w", result := none,
                  error_message := some "boom" })]⟩
    "t" (some "ok") "x"
    { task_id := "t", description := "d", target_agent_id := none,
      priority := 0, status := TaskStatus.failed,
      assigned_agent_id := some "w", result := none,
      error_message := some "boom" }
    rfl (Or.inr (Or.inl rfl))).1

/-- C5 counterexample: a persisted snapshot whose stored status value is
running is reconstructed by `AgentInstance.from_state` with status running,
not idle — the manager load path never coerces active statuses. -/
theorem from_state_keeps_running_cex :
    agentInstanceLoadedStatus (some "running") = ModelsAgentStatus.running ∧
    agentInstanceLoadedStatus (some "starting") = ModelsAgentStatus.starting := by
  decide

/-- C5 amended: only the `BaseAgent.__init__` reconstruction path coerces an
active persisted status (RUNNING, STARTING, THINKING — and also STOPPING) to
IDLE; the `AgentInstance.from_state` path used by the manager keeps every
valid persisted status value unchanged. -/
theorem restored_status_characterization :
    (∀ init : BaseAgentStatus,
      baseAgentRestoredStatus (some "RUNNING") init = BaseAgentStatus.idle ∧
      baseAgentRestoredStatus (some "STARTING") init = BaseAgentStatus.idle ∧
      baseAgentRestoredStatus (some "THINKING") init = BaseAgentStatus.idle ∧
      baseAgentRestoredStatus (some "STOPPING") init = BaseAgentStatus.idle) ∧
    (∀ s : ModelsAgentStatus,
      agentInstanceLoadedStatus (some (modelsAgentStatusValue s)) = s) := by
  constructor
  · intro init
    exact ⟨rfl, rfl, rfl, rfl⟩
  · intro s
    cases s <;> rfl

/-- C6 counterexample: with untargeted tasks d (priority 0) and a, b, c (all
priority 1) enqueued in that order, the first two `get_task` calls return d
and then b: task b is handed out before the equal-priority task a that was
enqueued earlier, so priority ties are not broken in FIFO order. -/
theorem equal_priority_not_fifo_cex :
    run [Op.add "d" "" none 0, Op.add "a" "" none 1, Op.add "b" "" none 1,
         Op.add "c" "" none 1, Op.get "w", Op.get "w"] = ["d", "b"] := by
  rfl

/-- C6 amended: the heap comparison consults priorities only (no insertion
counter is stored), so equal-priority tasks are dequeued in the order induced
by the binary-heap array layout, which can differ from insertion order: the
counterexample trace dequeues d, b, a, c. -/
theorem equal_priority_heap_order :
    (∀ e1 e2 : Entry, entryLt e1 e2 = decide (e1.priority < e2.priority)) ∧
    run [Op.add "d" "" none 0, Op.add "a" "" none 1, Op.add "b" "" none 1,
         Op.add "c" "" none 1, Op.get "w", Op.get "w", Op.get "w", Op.get "w"]
      = ["d", "b", "a", "c"] := by
  exact ⟨fun e1 e2 => rfl, rfl⟩

/-- C7 counterexample: a task stored with target_agent_id equal to the empty
string is claimed by the unrelated agent v — Python truthiness treats the
empty-string target as unset, so the targeted-routing claim fails at W
equal to the empty string. -/
theorem empty_string_target_cex :
    ((applyOps TaskQueue.init [Op.add "t" "d" (some "") 0]).get_task "v").1
      = some { task_id := "t", description := "d", target_agent_id := some "",
               priority := 0, status := TaskStatus.assigned,
               assigned_agent_id := some "v", result := none,
               error_message := none } := by
  rfl

/-- C7 amended: a task whose target_agent_id is a nonempty worker id W is
only ever returned by `get_task` to W itself, whatever the queue contents;
an empty-string target behaves as unset. -/
theorem targeted_task_only_to_target (q : TaskQueue) (a w : String) (t : Task)
    (hret : (q.get_task a).1 = some t)
    (hw : t.target_agent_id = some w) (hne : w ≠ "") : a = w := by
  have h0 := hret
  rcases hpop : heappop q.queue with _ | ⟨e, rest⟩
  · simp [TaskQueue.get_task, hpop] at h0
  · rcases hfind : findTask q.all_tasks e.id with _ | task
    · simp [TaskQueue.get_task, hpop, hfind] at h0
    · by_cases hc1 : task.status = TaskStatus.cancelled
      · simp [TaskQueue.get_task, hpop, hfind, hc1] at h0
      · by_cases hc2 : pyTruthy task.target_agent_id ∧ task.target_agent_id ≠ some a
        · simp only [TaskQueue.get_task, hpop, hfind, if_neg hc1, if_pos hc2] at h0
          simp at h0
        · simp only [TaskQueue.get_task, hpop, hfind, if_neg hc1, if_neg hc2] at h0
          have hupd : task.update_status TaskStatus.assigned (some a) none none = t :=
            Option.some.inj h0
          have htar : task.target_agent_id = some w := by
            rw [← update_status_target task TaskStatus.assigned (some a) none none, hupd, hw]
          have htruthy : pyTruthy task.target_agent_id = true := by
            rw [htar]
            simpa [pyTruthy] using hne
          have hta : task.target_agent_id = some a :=
            not_not.mp (fun hnn => hc2 ⟨htruthy, hnn⟩)
          rw [htar] at hta
          exact (Option.some.inj hta).symm

/-- Witness for the amended C7 theorem: the targeted worker w1 itself claims
its task, and the theorem instantiates to w1 = w1. -/
theorem targeted_task_only_to_target_witness :
    ((TaskQueue.get_task ⟨[⟨0, "t"⟩], [("t", mkTask "t" "d" (some "w1") 0)]⟩ "w1").1
      = some ((mkTask "t" "d" (some "w1") 0).update_status TaskStatus.assigned
          (some "w1") none none)) ∧ "w1" = "w1" :=
  ⟨rfl,
   targeted_task_only_to_target
     ⟨[⟨0, "t"⟩], [("t", mkTask "t" "d" (some "w1") 0)]⟩ "w1" "w1"
     ((mkTask "t" "d" (some "w1") 0).update_status TaskStatus.assigned
       (some "w1") none none)
     rfl rfl (by decide)⟩

/-- C8 counterexample: `Agent.start` (agents/base_agent.py) launches the loop
from status COMPLETED, which is outside the claimed accepted set, while
`BaseAgent.start` (base_agent.py) refuses to launch from ERROR, which the
claim says is accepted. -/
theorem start_gate_cex :
    (agentsAgentStart false AgentsAgentStatus.completed).2 = true ∧
    (baseAgentStart false BaseAgentStatus.error).2 = false := by
  decide

/-- C8 amended: `Agent.start` launches exactly when no loop thread is alive
and the status is IDLE, STOPPED, FAILED, COMPLETED, INITIALIZING or ERROR
(setting RUNNING), otherwise it warns and changes nothing; `BaseAgent.start`
launches exactly when no thread is alive and the status is none of RUNNING,
STARTING, THINKING, ERROR (setting STARTING), otherwise it returns with the
status unchanged. -/
theorem start_gate_characterization :
    (∀ (alive : Bool) (s : AgentsAgentStatus),
      ((agentsAgentStart alive s).2 = true ↔
        (alive = false ∧ (s = AgentsAgentStatus.idle ∨ s = AgentsAgentStatus.stopped ∨
          s = AgentsAgentStatus.failed ∨ s = AgentsAgentStatus.completed ∨
          s = AgentsAgentStatus.initializing ∨ s = AgentsAgentStatus.error))) ∧
      (agentsAgentStart alive s).1
        = (if (agentsAgentStart alive s).2 = true then AgentsAgentStatus.running else s)) ∧
    (∀ (alive : Bool) (s : BaseAgentStatus),
      ((baseAgentStart alive s).2 = true ↔
        (alive = false ∧ s ≠ BaseAgentStatus.running ∧ s ≠ BaseAgentStatus.starting ∧
          s ≠ BaseAgentStatus.thinking ∧ s ≠ BaseAgentStatus.error)) ∧
      (baseAgentStart alive s).1
        = (if (baseAgentStart alive s).2 = true then BaseAgentStatus.starting else s)) := by
  constructor
  · intro alive s
    cases alive <;> cases s <;> exact ⟨by decide, by decide⟩
  · intro alive s
    cases alive <;> cases s <;> exact ⟨by decide, by decide⟩

/-- Witness for the amended C8 theorem: a startable status launches and the
launched statuses are RUNNING and STARTING respectively. -/
theorem start_gate_characterization_witness :
    (agentsAgentStart false AgentsAgentStatus.idle).1 = AgentsAgentStatus.running ∧
    (baseAgentStart false BaseAgentStatus.stopped).1 = BaseAgentStatus.starting := by
  constructor
  · rw [(start_gate_characterization.1 false AgentsAgentStatus.idle).2]
    decide
  · rw [(start_gate_characterization.2 false BaseAgentStatus.stopped).2]
    decide

/-- C9: when the thread-stopped callback runs for a registered worker whose
recorded status is not one of the terminal statuses — in the models enum of
the manager the claimed terminal set reduces to STOPPED and ERROR, since
FAILED and CANCELLED are not members — the manager forces the status to
ERROR. -/
theorem thread_stop_forces_error (s : ModelsAgentStatus)
    (h1 : s ≠ ModelsAgentStatus.stopped) (h2 : s ≠ ModelsAgentStatus.error) :
    handleAgentThreadStop s = ModelsAgentStatus.error := by
  simp [handleAgentThreadStop, h1, h2]

/-- Witness for C9 at status RUNNING. -/
theorem thread_stop_forces_error_witness :
    handleAgentThreadStop ModelsAgentStatus.running = ModelsAgentStatus.error :=
  thread_stop_forces_error ModelsAgentStatus.running (by decide) (by decide)

/-- C10: when the popped highest-priority entry refers to a task that is
CANCELLED or no longer tracked, `get_task` returns none and permanently
discards the entry: the resulting heap is exactly the popped remainder (the
entry id is absent from it whenever the heap ids were distinct) and the
tracking dict is untouched. -/
theorem cancelled_or_missing_task_discarded (q : TaskQueue) (a : String) (e : Entry)
    (rest : List Entry)
    (hpop : heappop q.queue = some (e, rest))
    (hgone : findTask q.all_tasks e.id = none ∨
      ∃ task, findTask q.all_tasks e.id = some task ∧
        task.status = TaskStatus.cancelled) :
    q.get_task a = (none, { q with queue := rest }) ∧
    ((queueIds q).Nodup → e.id ∉ rest.map Entry.id) := by
  have hperm := heappop_perm _ _ _ hpop
  constructor
  · rcases hgone with hnone | ⟨task, hsome, hcanc⟩
    · simp only [TaskQueue.get_task, hpop, hnone]
    · simp only [TaskQueue.get_task, hpop, hsome, if_pos hcanc]
  · intro hnd
    have hidperm : (queueIds q).Perm (e.id :: rest.map Entry.id) := by
      simpa [queueIds] using hperm.map Entry.id
    exact (List.nodup_cons.mp ((hidperm.nodup_iff).mp hnd)).1

/-- Witness for C10: popping the single cancelled task discards it and
returns none. -/
theorem cancelled_or_missing_task_discarded_witness :
    TaskQueue.get_task
        ⟨[⟨0, "t"⟩],
         [("t", { task_id := "t", description := "d", target_agent_id := none,
                  priority := 0, status := TaskStatus.cancelled,
                  assigned_agent_id := none, result := none,
                  error_message := none })]⟩ "w"
      = (none,
         ⟨[],
          [("t", { task_id := "t", description := "d", target_agent_id := none,
                   priority := 0, status := TaskStatus.cancelled,
                   assigned_agent_id := none, result := none,
                   error_message := none })]⟩) :=
  (cancelled_or_missing_task_discarded
    ⟨[⟨0, "t"⟩],
     [("t", { task_id := "t", description := "d", target_agent_id := none,
              priority := 0, status := TaskStatus.cancelled,
              assigned_agent_id := none, result := none,
              error_message := none })]⟩ "w" ⟨0, "t"⟩ [] rfl
    (Or.inr ⟨{ task_id := "t", description := "d", target_agent_id := none,
               priority := 0, status := TaskStatus.cancelled,
               assigned_agent_id := none, result := none,
               error_message := none }, rfl, rfl⟩)).1

end CPAS3
